import Mathlib

/-!
# Verification of the hangman (Wheel-of-Fortune) Telegram bot game core

Shallow embedding of the game's state machine, translated from the
TypeScript sources:

* `src/src/utils/normalize.ts` — Hebrew letter normalization (final forms),
  string comparison for solve attempts, plus the bot's game handlers
  (`checkAndHandleTurnTimeout`, `handleLetterGuess`, ...).
* `src/src/utils/redis.ts` — the pure state-transition functions
  (`addPlayer`, `nextTurn`, `addPoints`, `checkWinner`, `newRound`,
  `incrementTimeout`, `removePlayer`, ...).
* `src/api/cron.ts` — the periodic timeout sweep (`checkAllGameTimeouts`,
  `handleTurnTimeout`).

Modelling conventions:

* JS strings are `List Char` (the sources only index BMP code units, where
  `split('')` yields one `Char` per unit).
* JS numbers used as ids, timestamps and scores are `Nat`; truncated `Nat`
  subtraction coincides with the source's `Date.now() - t > LIMIT` tests for
  every `Nat` input (a negative JS difference never exceeds the limit, and
  truncation to `0` never does either).
* `Record<number, PlayerData>` objects are association lists kept sorted by
  strictly ascending key (`PlayersRecord`).  JavaScript objects enumerate
  array-index keys in ascending numeric order regardless of insertion order,
  so `Object.entries`, spread-update `{...m, [k]: v}` and rest-destructuring
  deletion are modelled by `recordGet` / `recordSet` / `recordDelete` over
  that sorted list.
* `I/O` effects (saving, deleting, messaging) are modelled as outcome
  constructors: a transition either produces a state to persist, deletes the
  match, or is a no-op.
-/

namespace Hangman

/-- Player record stored per id: `{ name, score, timeouts }`
(`src/src/utils/redis.ts` seeds `{ name, score: 0, timeouts: 0 }`). -/
structure PlayerData where
  name : List Char
  score : Nat
  timeouts : Nat
deriving DecidableEq, Repr

/-- A JS `Record<number, PlayerData>` object, kept sorted by ascending key
to mirror JavaScript's enumeration order for numeric (array-index) keys. -/
abbrev PlayersRecord := List (Nat × PlayerData)

/-- Property access `m[k]` on the record. -/
def recordGet : PlayersRecord → Nat → Option PlayerData
  | [], _ => none
  | (k', v') :: rest, k => if k = k' then some v' else recordGet rest k

/-- Spread-update `{...m, [k]: v}`: replaces the value at `k` or inserts the
key; insertion keeps the ascending-key order that JS enumeration exposes. -/
def recordSet : PlayersRecord → Nat → PlayerData → PlayersRecord
  | [], k, v => [(k, v)]
  | (k', v') :: rest, k, v =>
    if k = k' then (k, v) :: rest
    else if k < k' then (k, v) :: (k', v') :: rest
    else (k', v') :: recordSet rest k v

/-- Rest-destructuring deletion `const { [k]: _, ...remaining } = m`. -/
def recordDelete (m : PlayersRecord) (k : Nat) : PlayersRecord :=
  m.filter (fun e => e.1 ≠ k)

/-- Game status phases (`src/unnamed/part_001`, `GameStatus`). -/
inductive GameStatus
  | joining
  | playing
deriving DecidableEq, Repr

/-- Complete game state stored in the key-value store
(`GameState` in `src/unnamed/part_001`).  Optional fields are `Option`
(`undefined` is `none`); `awaitingSolution` is a `Bool` because the source
only tests its truthiness (`undefined` and `false` behave identically). -/
structure GameState where
  word : List Char
  category : List Char
  revealedLetters : List Char
  playerOrder : List Nat
  playersData : PlayersRecord
  turnIndex : Nat
  winLimit : Nat
  status : GameStatus
  startedBy : Nat
  gameBoardMessageId : Option Nat := none
  awaitingSolution : Bool := false
  solvingPlayerId : Option Nat := none
  solutionMessageId : Option Nat := none
  turnStartTime : Option Nat := none
  solutionStartTime : Option Nat := none
deriving DecidableEq, Repr

/-- `TURN_TIMEOUT_MS = 30_000` (`src/unnamed/part_001`). -/
def TURN_TIMEOUT_MS : Nat := 30000

/-- `SOLUTION_TIMEOUT_MS = 30_000` (`src/unnamed/part_001`). -/
def SOLUTION_TIMEOUT_MS : Nat := 30000

/-- `POINTS_LETTER = 1` (bot logic in `src/src/utils/normalize.ts`). -/
def POINTS_LETTER : Nat := 1

/-- `POINTS_SOLVE = 2` (bot logic in `src/src/utils/normalize.ts`). -/
def POINTS_SOLVE : Nat := 2

/-! ## Normalization module (`src/src/utils/normalize.ts`) -/

/-- `FINAL_TO_REGULAR` lookup: final Hebrew letters to their regular form. -/
def FINAL_TO_REGULAR (c : Char) : Option Char :=
  if c = 'ך' then some 'כ'
  else if c = 'ם' then some 'מ'
  else if c = 'ן' then some 'נ'
  else if c = 'ף' then some 'פ'
  else if c = 'ץ' then some 'צ'
  else none

/-- `REGULAR_TO_FINAL` lookup: regular Hebrew letters to their final form. -/
def REGULAR_TO_FINAL (c : Char) : Option Char :=
  if c = 'כ' then some 'ך'
  else if c = 'מ' then some 'ם'
  else if c = 'נ' then some 'ן'
  else if c = 'פ' then some 'ף'
  else if c = 'צ' then some 'ץ'
  else none

/-- `normalize(char)`: final letters become regular, identity otherwise. -/
def normalize (c : Char) : Char :=
  (FINAL_TO_REGULAR c).getD c

/-- `getBothForms(letter)`: `[regular, final]`, or just `[regular]` when the
letter has no final form. -/
def getBothForms (letter : Char) : List Char :=
  let normalized := normalize letter
  match REGULAR_TO_FINAL normalized with
  | some finalForm => [normalized, finalForm]
  | none => [normalized]

/-- JavaScript's `\s` character class (used by `.replace(/\s/g, '')`). -/
def jsIsWhitespace (c : Char) : Bool :=
  c = ' ' || c = '\t' || c = '\n' || c.toNat = 11 || c.toNat = 12 ||
  c.toNat = 13 || c.toNat = 0xa0 || c.toNat = 0x1680 ||
  (0x2000 ≤ c.toNat && c.toNat ≤ 0x200a) || c.toNat = 0x2028 ||
  c.toNat = 0x2029 || c.toNat = 0x202f || c.toNat = 0x205f ||
  c.toNat = 0x3000 || c.toNat = 0xfeff

/-- `normalizeString(str)`: normalize every character, then strip all
whitespace (`split('').map(normalize).join('').replace(/\s/g, '')`). -/
def normalizeString (s : List Char) : List Char :=
  (s.map normalize).filter (fun c => !jsIsWhitespace c)

/-- `isHebrewLetter(char)`: code unit in `[0x05d0, 0x05ea]`. -/
def isHebrewLetter (c : Char) : Bool :=
  0x05d0 ≤ c.toNat && c.toNat ≤ 0x05ea

/-- `compareHebrewStrings(str1, str2)`: equality after normalization. -/
def compareHebrewStrings (str1 str2 : List Char) : Bool :=
  normalizeString str1 = normalizeString str2

/-! ## Transition engine (`src/src/utils/redis.ts`) -/

/-- `createInitialState(word, category, startedBy, winLimit)`. -/
def createInitialState (word category : List Char) (startedBy winLimit : Nat) :
    GameState :=
  { word := word
    category := category
    revealedLetters := []
    playerOrder := []
    playersData := []
    turnIndex := 0
    winLimit := winLimit
    status := .joining
    startedBy := startedBy }

/-- `addPlayer(state, playerId, playerName)`: no-op when already present,
otherwise appends to `playerOrder` and seeds data at score/timeouts 0. -/
def addPlayer (state : GameState) (playerId : Nat) (playerName : List Char) :
    GameState :=
  if playerId ∈ state.playerOrder then state
  else
    { state with
      playerOrder := state.playerOrder ++ [playerId]
      playersData := recordSet state.playersData playerId
        { name := playerName, score := 0, timeouts := 0 } }

/-- `addRevealedLetter(state, letter)`: adds the letter if absent. -/
def addRevealedLetter (state : GameState) (letter : Char) : GameState :=
  if letter ∈ state.revealedLetters then state
  else { state with revealedLetters := state.revealedLetters ++ [letter] }

/-- `nextTurn(state)`: `turnIndex = (turnIndex + 1) % playerOrder.length`.
The source does not guard the empty roster: in JS `x % 0` is `NaN`, so the
result is only meaningful when `playerOrder` is non-empty (claim C9). -/
def nextTurn (state : GameState) : GameState :=
  { state with turnIndex := (state.turnIndex + 1) % state.playerOrder.length }

/-- `addPoints(state, playerId, points)`: silently returns the state
unchanged when the id has no entry in `playersData`. -/
def addPoints (state : GameState) (playerId points : Nat) : GameState :=
  match recordGet state.playersData playerId with
  | none => state
  | some playerData =>
    { state with
      playersData := recordSet state.playersData playerId
        { playerData with score := playerData.score + points } }

/-- `getCurrentPlayerId(state)`: `playerOrder[turnIndex]`
(`undefined` when out of bounds). -/
def getCurrentPlayerId (state : GameState) : Option Nat :=
  state.playerOrder[state.turnIndex]?

/-- `getCurrentPlayer(state)`: data of the current player, if any. -/
def getCurrentPlayer (state : GameState) : Option PlayerData :=
  match getCurrentPlayerId state with
  | some playerId => recordGet state.playersData playerId
  | none => none

/-- `checkWinner(state)`: iterates `Object.entries(state.playersData)` —
i.e. the record in ascending-key enumeration order — and returns the first
id whose score reaches `winLimit`. -/
def checkWinner (state : GameState) : Option Nat :=
  (state.playersData.find? (fun e => state.winLimit ≤ e.2.score)).map (·.1)

/-- `newRound(state, word, category)`: new word and category, empty
`revealedLetters`, clears `awaitingSolution`, `solvingPlayerId`,
`solutionMessageId`.  The source does not touch `solutionStartTime`. -/
def newRound (state : GameState) (word category : List Char) : GameState :=
  { state with
    word := word
    category := category
    revealedLetters := []
    awaitingSolution := false
    solvingPlayerId := none
    solutionMessageId := none }

/-- `incrementTimeout(state, playerId)`: bumps the player's timeout counter
(`(playerData.timeouts || 0) + 1`; on `Nat` the `|| 0` guard is identity),
silently a no-op when the id has no entry. -/
def incrementTimeout (state : GameState) (playerId : Nat) : GameState :=
  match recordGet state.playersData playerId with
  | none => state
  | some playerData =>
    { state with
      playersData := recordSet state.playersData playerId
        { playerData with timeouts := playerData.timeouts + 1 } }

/-- `removePlayer(state, playerId)`: no-op when absent
(`indexOf === -1`); otherwise filters the id out of `playerOrder`, deletes
its `playersData` entry, and re-derives `turnIndex` (`Nat` subtraction is
exactly the source's `Math.max(0, turnIndex - 1)`). -/
def removePlayer (state : GameState) (playerId : Nat) : GameState :=
  if playerId ∈ state.playerOrder then
    let playerIndex := state.playerOrder.indexOf playerId
    let newPlayerOrder := state.playerOrder.filter (fun id => id ≠ playerId)
    let remainingPlayers := recordDelete state.playersData playerId
    let newTurnIndex :=
      if playerIndex < state.turnIndex then state.turnIndex - 1
      else if playerIndex = state.turnIndex then
        if newPlayerOrder.length > 0 then state.turnIndex % newPlayerOrder.length
        else 0
      else state.turnIndex
    { state with
      playerOrder := newPlayerOrder
      playersData := remainingPlayers
      turnIndex := newTurnIndex }
  else state

/-! ## Timeout arbiter and interactive handlers

The ejection threshold `MAX_TIMEOUTS` is imported from the types module by
both `src/api/cron.ts` and the bot logic, but its defining constant is not
present in the sources; the functions below therefore take `maxTimeouts`
as an explicit parameter and every theorem is proved for all its values. -/

/-- Outcome of a timeout-handling transition: the source either returns
without persisting, deletes the match from the store, or saves a state. -/
inductive TimeoutOutcome
  | noOp
  | deleted
  | saved (state : GameState)
deriving DecidableEq, Repr

/-- `handleTurnTimeout(chatId, state)` from `src/api/cron.ts`: increments
the current player's timeout counter; if the counter reaches the threshold,
removes the player (deleting the match when the roster empties), otherwise
advances the turn; in both surviving cases resets `turnStartTime` before
the save.  `if (!timedOutPlayerId)` is a JS falsy test, hence the extra
`playerId = 0` branch. -/
def handleTurnTimeout (maxTimeouts : Nat) (state : GameState) (now : Nat) :
    TimeoutOutcome :=
  match getCurrentPlayerId state with
  | none => .noOp
  | some timedOutPlayerId =>
    if timedOutPlayerId = 0 then .noOp
    else
      let s1 := incrementTimeout state timedOutPlayerId
      let timeoutCount :=
        match recordGet s1.playersData timedOutPlayerId with
        | some playerData => playerData.timeouts
        | none => 0
      if maxTimeouts ≤ timeoutCount then
        let s2 := removePlayer s1 timedOutPlayerId
        if s2.playerOrder.length < 1 then .deleted
        else .saved { s2 with turnStartTime := some now }
      else
        .saved { nextTurn s1 with turnStartTime := some now }

/-- Result of the interactive pre-action check: `notTimedOut` is the
source's `return false` (proceed with the player's action); the other two
constructors are the `return true` paths. -/
inductive InteractiveTimeoutResult
  | notTimedOut
  | deleted
  | saved (state : GameState)
deriving DecidableEq, Repr

/-- `checkAndHandleTurnTimeout(ctx, state, chatId)` from the bot logic in
`src/src/utils/normalize.ts`: returns `false` immediately when
`awaitingSolution` is set ("solution has its own timeout"); otherwise, when
the turn timer exists (truthy, hence `t ≠ 0`) and has expired, applies the
identical increment / eject-or-advance / reset-deadline decision as the
cron path (the two bodies are line-for-line the same logic, so the shared
core is factored through `handleTurnTimeout`). -/
def checkAndHandleTurnTimeout (maxTimeouts : Nat) (state : GameState)
    (now : Nat) : InteractiveTimeoutResult :=
  if state.awaitingSolution then .notTimedOut
  else
    match state.turnStartTime with
    | none => .notTimedOut
    | some turnStart =>
      if turnStart ≠ 0 ∧ TURN_TIMEOUT_MS < now - turnStart then
        match handleTurnTimeout maxTimeouts state now with
        | .noOp => .notTimedOut
        | .deleted => .deleted
        | .saved s => .saved s
      else .notTimedOut

/-- Which handler a single iteration of the sweep loop in
`checkAllGameTimeouts` (`src/api/cron.ts`) invokes for one stored game. -/
inductive SweepAction
  | notPlaying
  | solutionTimeout
  | turnTimeout
  | idle
deriving DecidableEq, Repr

/-- Truthy test on an optional JS number (`undefined` and `0` are falsy). -/
def numTruthy : Option Nat → Bool
  | none => false
  | some n => n ≠ 0

/-- The turn-expiry test `state.turnStartTime && Date.now() -
state.turnStartTime > TURN_TIMEOUT_MS`. -/
def turnTimerExpired (state : GameState) (now : Nat) : Bool :=
  match state.turnStartTime with
  | none => false
  | some turnStart => turnStart ≠ 0 && TURN_TIMEOUT_MS < now - turnStart

/-- One iteration of the sweep loop in `checkAllGameTimeouts`
(`src/api/cron.ts`, identical structure in `src/src/timeout.ts`): skip
non-playing games; when a solve attempt is awaited and its timer has
expired, handle the solution timeout and `continue`; otherwise fall through
to the turn-timeout test.  Note the fall-through: an unexpired solve
attempt does NOT skip the turn check. -/
def sweepGameAction (state : GameState) (now : Nat) : SweepAction :=
  if state.status ≠ .playing then .notPlaying
  else if state.awaitingSolution && numTruthy state.solutionStartTime then
    match state.solutionStartTime with
    | some solutionStart =>
      if SOLUTION_TIMEOUT_MS < now - solutionStart then .solutionTimeout
      else if turnTimerExpired state now then .turnTimeout
      else .idle
    | none => if turnTimerExpired state now then .turnTimeout else .idle
  else if turnTimerExpired state now then .turnTimeout else .idle

/-- `isWordComplete(state)`: every Hebrew letter of the word, normalized,
is among the revealed letters (spaces and non-Hebrew characters skipped). -/
def isWordComplete (state : GameState) : Bool :=
  state.word.all (fun c =>
    if c = ' ' || !isHebrewLetter c then true
    else normalize c ∈ state.revealedLetters)

/-- Outcome of `handleLetterGuess`.  `correct` carries the state the source
saves (or, when `wordComplete` is set, passes on to `handleWordComplete`);
`wrong` carries the state saved after the turn passes. -/
inductive GuessOutcome
  | notPlaying
  | timeoutHandled (r : InteractiveTimeoutResult)
  | notYourTurn
  | noLetter
  | alreadyRevealed
  | correct (state : GameState) (wordComplete : Bool)
  | wrong (state : GameState)
deriving DecidableEq, Repr

/-- The game state a `GuessOutcome` persists, if any. -/
def GuessOutcome.stateOf : GuessOutcome → Option GameState
  | .correct s _ => some s
  | .wrong s => some s
  | _ => none

/-- Discriminates the correct-guess outcome. -/
def GuessOutcome.isCorrectGuess : GuessOutcome → Bool
  | .correct _ _ => true
  | _ => false

/-- Discriminates the wrong-guess outcome. -/
def GuessOutcome.isWrongGuess : GuessOutcome → Bool
  | .wrong _ => true
  | _ => false

/-- `handleLetterGuess(ctx, state, chatId, userId, letter)` from the bot
logic in `src/src/utils/normalize.ts`: requires a playing game, runs the
interactive timeout pre-check, requires turn ownership, a letter, and that
the letter is new; reveals the letter; a correct guess (either glyph form
occurs in the word) awards `POINTS_LETTER` and keeps the turn with a fresh
timer, a wrong guess advances the turn with a fresh timer. -/
def handleLetterGuess (maxTimeouts : Nat) (state : GameState) (userId : Nat)
    (letter : Option Char) (now : Nat) : GuessOutcome :=
  if state.status ≠ .playing then .notPlaying
  else
    match checkAndHandleTurnTimeout maxTimeouts state now with
    | .deleted => .timeoutHandled .deleted
    | .saved s => .timeoutHandled (.saved s)
    | .notTimedOut =>
      if getCurrentPlayerId state ≠ some userId then .notYourTurn
      else
        match letter with
        | none => .noLetter
        | some l =>
          let normalizedLetter := normalize l
          if normalizedLetter ∈ state.revealedLetters then .alreadyRevealed
          else
            let letterForms := getBothForms normalizedLetter
            let isInWord := letterForms.any (fun form => form ∈ state.word)
            let newState := addRevealedLetter state normalizedLetter
            if isInWord then
              let s2 :=
                { addPoints newState userId POINTS_LETTER with
                  turnStartTime := some now }
              .correct s2 (isWordComplete s2)
            else
              .wrong { nextTurn newState with turnStartTime := some now }

/-! ## Concrete states used in witnesses and counterexamples -/

/-- Player data with empty display name. -/
def pdOf (score timeouts : Nat) : PlayerData :=
  { name := [], score := score, timeouts := timeouts }

/-- A playing state with an active, unexpired solve attempt whose turn
timer has already expired (turn started at 1000, solve prompt at 20000). -/
def exSolveState : GameState :=
  { word := ['ש', 'ל', 'ו', 'ם']
    category := []
    revealedLetters := []
    playerOrder := [7]
    playersData := [(7, pdOf 0 0)]
    turnIndex := 0
    winLimit := 10
    status := .playing
    startedBy := 7
    awaitingSolution := true
    solvingPlayerId := some 7
    solutionMessageId := some 1
    turnStartTime := some 1000
    solutionStartTime := some 20000 }

/-- A playing state whose sole player has timeout counter 2. -/
def exSoleTimeoutState : GameState :=
  { word := ['ש', 'ל', 'ו', 'ם']
    category := []
    revealedLetters := []
    playerOrder := [5]
    playersData := [(5, pdOf 0 2)]
    turnIndex := 0
    winLimit := 10
    status := .playing
    startedBy := 5
    turnStartTime := some 1000 }

/-- Roster order [10, 3] with both players at the win limit; the record
(as a JS numeric-keyed object) enumerates id 3 before id 10. -/
def exWinnerPairState : GameState :=
  { word := ['ש', 'ל', 'ו', 'ם']
    category := []
    revealedLetters := []
    playerOrder := [10, 3]
    playersData := [(3, pdOf 10 0), (10, pdOf 10 0)]
    turnIndex := 0
    winLimit := 10
    status := .playing
    startedBy := 10 }

/-- A three-player state with the middle player's turn. -/
def exRemoveState : GameState :=
  { word := ['ש', 'ל', 'ו', 'ם']
    category := []
    revealedLetters := []
    playerOrder := [1, 2, 3]
    playersData := [(1, pdOf 0 0), (2, pdOf 0 0), (3, pdOf 0 0)]
    turnIndex := 1
    winLimit := 10
    status := .playing
    startedBy := 1 }

/-- A two-player playing state with an unexpired turn timer at `now =
41000`, used to exercise letter guessing. -/
def exGuessState : GameState :=
  { word := ['ש', 'ל', 'ו', 'ם']
    category := []
    revealedLetters := []
    playerOrder := [5, 6]
    playersData := [(5, pdOf 0 0), (6, pdOf 0 0)]
    turnIndex := 0
    winLimit := 10
    status := .playing
    startedBy := 5
    turnStartTime := some 40000 }

/-- A state carrying a stale in-flight solve attempt (deadline timestamp
`some 5`), about to start a new round. -/
def exStaleSolveState : GameState :=
  { word := ['א']
    category := []
    revealedLetters := ['א']
    playerOrder := [5]
    playersData := [(5, pdOf 3 0)]
    turnIndex := 0
    winLimit := 10
    status := .playing
    startedBy := 5
    awaitingSolution := true
    solvingPlayerId := some 5
    solutionMessageId := some 9
    turnStartTime := some 1000
    solutionStartTime := some 5 }

/-- The empty-roster initial state. -/
def emptyRosterState : GameState :=
  createInitialState ['א'] [] 1 10

/-- Follows claim C3's words (not the source): the first player in
`playerOrder` (roster order) whose score reaches `winLimit`.  Compared
against the source-derived `checkWinner`. -/
def checkWinnerRosterSpec (state : GameState) : Option Nat :=
  state.playerOrder.find? (fun pid =>
    match recordGet state.playersData pid with
    | some playerData => state.winLimit ≤ playerData.score
    | none => false)

/-- Well-formedness of a modelled JS record: keys strictly ascending (the
enumeration order JavaScript exposes for numeric keys), hence no duplicate
keys.  Every record built by the transition engine satisfies it. -/
def RecordWF (m : PlayersRecord) : Prop :=
  m.Pairwise (fun a b => a.1 < b.1)

instance (m : PlayersRecord) : Decidable (RecordWF m) := by
  unfold RecordWF
  infer_instance

/-- The roster/turn invariant that any sequence of removals must preserve:
no duplicate ids, and `turnIndex` in bounds whenever the roster is
non-empty. -/
def removalInvariant (s : GameState) : Prop :=
  s.playerOrder.Nodup ∧
  (s.playerOrder ≠ [] → s.turnIndex < s.playerOrder.length)

instance (s : GameState) : Decidable (removalInvariant s) :=
  inferInstanceAs (Decidable (_ ∧ _))

/-- A sequence of `addPlayer` calls, each `(id, name)`. -/
def applyJoins (calls : List (Nat × List Char)) (s : GameState) : GameState :=
  calls.foldl (fun st c => addPlayer st c.1 c.2) s

/-- The roster/data invariant preserved by `addPlayer`: duplicate-free
roster, matching sizes, roster membership iff a data entry exists, and a
well-formed (ascending-key) record. -/
def joinInvariant (s : GameState) : Prop :=
  s.playerOrder.Nodup ∧
  s.playerOrder.length = s.playersData.length ∧
  (∀ id, id ∈ s.playerOrder ↔ (recordGet s.playersData id).isSome) ∧
  RecordWF s.playersData

/-! ## Helper lemmas about `PlayersRecord` operations -/

theorem recordGet_eq_none (m : PlayersRecord) (k : Nat)
    (h : ∀ b ∈ m, k ≠ b.1) : recordGet m k = none := by
  induction m with
  | nil => rfl
  | cons e rest ih =>
    obtain ⟨ek, ev⟩ := e
    have hne : k ≠ ek := h (ek, ev) (by simp)
    simp only [recordGet, if_neg hne]
    exact ih fun b hb => h b (List.mem_cons_of_mem _ hb)

theorem mem_recordSet (m : PlayersRecord) (k : Nat) (v : PlayerData)
    (b : Nat × PlayerData) (hb : b ∈ recordSet m k v) : b = (k, v) ∨ b ∈ m := by
  induction m with
  | nil => simpa [recordSet] using hb
  | cons e rest ih =>
    obtain ⟨ek, ev⟩ := e
    by_cases h1 : k = ek
    · simp only [recordSet, if_pos h1] at hb
      rcases List.mem_cons.mp hb with h | h
      · exact Or.inl h
      · exact Or.inr (List.mem_cons_of_mem _ h)
    · by_cases h3 : k < ek
      · simp only [recordSet, if_neg h1, if_pos h3] at hb
        rcases List.mem_cons.mp hb with h | h
        · exact Or.inl h
        · exact Or.inr h
      · simp only [recordSet, if_neg h1, if_neg h3] at hb
        rcases List.mem_cons.mp hb with h | h
        · exact Or.inr (by simp [h])
        · rcases ih h with h' | h'
          · exact Or.inl h'
          · exact Or.inr (List.mem_cons_of_mem _ h')

theorem recordWF_recordSet (m : PlayersRecord) (k : Nat) (v : PlayerData)
    (h : RecordWF m) : RecordWF (recordSet m k v) := by
  induction m with
  | nil => simp [recordSet, RecordWF]
  | cons e rest ih =>
    obtain ⟨ek, ev⟩ := e
    rw [RecordWF, List.pairwise_cons] at h
    by_cases h1 : k = ek
    · subst h1
      simp only [recordSet, if_pos rfl]
      exact List.pairwise_cons.mpr ⟨h.1, h.2⟩
    · by_cases h3 : k < ek
      · simp only [recordSet, if_neg h1, if_pos h3]
        refine List.pairwise_cons.mpr ⟨?_, List.pairwise_cons.mpr ⟨h.1, h.2⟩⟩
        intro b hb
        rcases List.mem_cons.mp hb with hbe | hbr
        · simpa [hbe] using h3
        · exact lt_trans h3 (h.1 b hbr)
      · simp only [recordSet, if_neg h1, if_neg h3]
        refine List.pairwise_cons.mpr ⟨?_, ih h.2⟩
        intro b hb
        rcases mem_recordSet rest k v b hb with hbe | hbr
        · simp only [hbe]
          omega
        · exact h.1 b hbr

theorem recordGet_recordSet_self (m : PlayersRecord) (k : Nat) (v : PlayerData) :
    recordGet (recordSet m k v) k = some v := by
  induction m with
  | nil => simp [recordSet, recordGet]
  | cons e rest ih =>
    obtain ⟨ek, ev⟩ := e
    by_cases h1 : k = ek
    · simp [recordSet, h1, recordGet]
    · by_cases h3 : k < ek
      · simp [recordSet, h1, h3, recordGet]
      · simp [recordSet, h1, h3, recordGet, ih]

theorem recordGet_recordSet_ne (m : PlayersRecord) (k k' : Nat) (v : PlayerData)
    (h : k' ≠ k) : recordGet (recordSet m k v) k' = recordGet m k' := by
  induction m with
  | nil => simp [recordSet, recordGet, h]
  | cons e rest ih =>
    obtain ⟨ek, ev⟩ := e
    by_cases h1 : k = ek
    · subst h1
      simp [recordSet, recordGet, h]
    · by_cases h3 : k < ek
      · simp [recordSet, h1, h3, recordGet, h]
      · simp [recordSet, h1, h3, recordGet, ih]

theorem length_recordSet (m : PlayersRecord) (k : Nat) (v : PlayerData)
    (hwf : RecordWF m) :
    (recordSet m k v).length =
      if (recordGet m k).isSome then m.length else m.length + 1 := by
  induction m with
  | nil => simp [recordSet, recordGet]
  | cons e rest ih =>
    obtain ⟨ek, ev⟩ := e
    rw [RecordWF, List.pairwise_cons] at hwf
    by_cases h1 : k = ek
    · simp [recordSet, h1, recordGet]
    · by_cases h3 : k < ek
      · have hnone : recordGet rest k = none :=
          recordGet_eq_none rest k fun b hb => by
            have := hwf.1 b hb
            omega
        simp [recordSet, h1, h3, recordGet, hnone]
      · simp only [recordSet, if_neg h1, if_neg h3, recordGet, List.length_cons,
          ih hwf.2, if_neg h1]
        split <;> simp

theorem recordGet_recordDelete_self (m : PlayersRecord) (k : Nat) :
    recordGet (recordDelete m k) k = none := by
  induction m with
  | nil => simp [recordDelete, recordGet]
  | cons e rest ih =>
    obtain ⟨ek, ev⟩ := e
    simp only [recordDelete] at ih ⊢
    rw [List.filter_cons]
    by_cases h1 : ek = k
    · simpa [h1] using ih
    · simpa [h1, recordGet, Ne.symm h1] using ih

theorem recordGet_of_mem (m : PlayersRecord) (k : Nat) (v : PlayerData)
    (hwf : RecordWF m) (hm : (k, v) ∈ m) : recordGet m k = some v := by
  induction m with
  | nil => cases hm
  | cons e rest ih =>
    obtain ⟨ek, ev⟩ := e
    rw [RecordWF, List.pairwise_cons] at hwf
    rcases List.mem_cons.mp hm with h | h
    · obtain ⟨rfl, rfl⟩ := Prod.mk.injEq .. ▸ h
      simp [recordGet]
    · have hlt : ek < k := hwf.1 (k, v) h
      rw [recordGet, if_neg (by omega)]
      exact ih hwf.2 h

theorem find_score_min (wl : Nat) (m : PlayersRecord) (e : Nat × PlayerData)
    (hwf : RecordWF m)
    (hf : m.find? (fun x => wl ≤ x.2.score) = some e) :
    ∀ e' ∈ m, wl ≤ e'.2.score → e.1 ≤ e'.1 := by
  induction m with
  | nil => simp at hf
  | cons b rest ih =>
    rw [RecordWF, List.pairwise_cons] at hwf
    by_cases hp : wl ≤ b.2.score
    · rw [List.find?_cons_of_pos _ (by simpa using hp)] at hf
      injection hf with hbe
      subst hbe
      intro e' he' _
      rcases List.mem_cons.mp he' with h | h
      · simp [h]
      · exact le_of_lt (hwf.1 e' h)
    · rw [List.find?_cons_of_neg _ (by simpa using hp)] at hf
      intro e' he' hscore
      rcases List.mem_cons.mp he' with h | h
      · exact absurd (h ▸ hscore) hp
      · exact ih hwf.2 hf e' h hscore

theorem length_filter_ne_of_nodup (l : List Nat) (a : Nat) (hnd : l.Nodup)
    (hm : a ∈ l) : (l.filter (fun x => x ≠ a)).length + 1 = l.length := by
  induction l with
  | nil => cases hm
  | cons b rest ih =>
    rw [List.nodup_cons] at hnd
    by_cases hb : b = a
    · subst hb
      rw [List.filter_cons_of_neg (by simp)]
      have hall : rest.filter (fun x => x ≠ b) = rest :=
        List.filter_eq_self.mpr fun x hx => by
          simp only [decide_eq_true_eq]
          intro heq
          exact hnd.1 (heq ▸ hx)
      rw [hall, List.length_cons]
    · have ha : a ∈ rest := by
        rcases List.mem_cons.mp hm with h | h
        · exact absurd h.symm hb
        · exact h
      rw [List.filter_cons_of_pos (by simpa using hb)]
      simp only [List.length_cons]
      rw [← ih hnd.2 ha]

theorem removePlayer_invariant (s : GameState) (id : Nat)
    (h : removalInvariant s) : removalInvariant (removePlayer s id) := by
  by_cases hmem : id ∈ s.playerOrder
  · obtain ⟨hnd, hb⟩ := h
    have hbound := hb (List.ne_nil_of_mem hmem)
    have hlen : (s.playerOrder.filter (fun x => x ≠ id)).length + 1 =
        s.playerOrder.length := length_filter_ne_of_nodup _ _ hnd hmem
    have hidx : s.playerOrder.indexOf id < s.playerOrder.length :=
      List.indexOf_lt_length.mpr hmem
    rw [removalInvariant]
    simp only [removePlayer, if_pos hmem]
    refine ⟨hnd.filter _, ?_⟩
    intro hne
    have hpos : 0 < (s.playerOrder.filter (fun x => x ≠ id)).length :=
      List.length_pos.mpr hne
    by_cases h1 : s.playerOrder.indexOf id < s.turnIndex
    · simp only [if_pos h1]
      omega
    · by_cases h2 : s.playerOrder.indexOf id = s.turnIndex
      · simp only [if_neg h1, if_pos h2, if_pos hpos]
        exact Nat.mod_lt _ hpos
      · simp only [if_neg h1, if_neg h2]
        omega
  · rwa [removePlayer, if_neg hmem]

theorem foldl_removePlayer_invariant (ids : List Nat) (s : GameState)
    (h : removalInvariant s) : removalInvariant (ids.foldl removePlayer s) := by
  induction ids generalizing s with
  | nil => exact h
  | cons a rest ih => exact ih _ (removePlayer_invariant s a h)

theorem addPlayer_joinInvariant (s : GameState) (id : Nat) (name : List Char)
    (h : joinInvariant s) : joinInvariant (addPlayer s id name) := by
  obtain ⟨hnd, hlen, hiff, hwf⟩ := h
  by_cases hmem : id ∈ s.playerOrder
  · rw [addPlayer, if_pos hmem]
    exact ⟨hnd, hlen, hiff, hwf⟩
  · have hget : recordGet s.playersData id = none := by
      cases hg : recordGet s.playersData id with
      | none => rfl
      | some v => exact absurd ((hiff id).mpr (by simp [hg])) hmem
    rw [joinInvariant]
    simp only [addPlayer, if_neg hmem]
    refine ⟨?_, ?_, ?_, recordWF_recordSet _ _ _ hwf⟩
    · simp [List.nodup_append, hnd, hmem]
    · rw [List.length_append, length_recordSet _ _ _ hwf, hget]
      simp [hlen]
    · intro q
      by_cases hq : q = id
      · subst hq
        simp [recordGet_recordSet_self]
      · rw [recordGet_recordSet_ne _ _ _ _ hq]
        simp [List.mem_append, hq, hiff q]

theorem joinInvariant_initial (w c : List Char) (sb wl : Nat) :
    joinInvariant (createInitialState w c sb wl) := by
  refine ⟨by simp [createInitialState], by simp [createInitialState], ?_,
    by simp [createInitialState, RecordWF]⟩
  intro id
  simp [createInitialState, recordGet]

theorem applyJoins_invariant (calls : List (Nat × List Char)) (s : GameState)
    (h : joinInvariant s) : joinInvariant (applyJoins calls s) := by
  induction calls generalizing s with
  | nil => exact h
  | cons c rest ih => exact ih _ (addPlayer_joinInvariant s c.1 c.2 h)

theorem incrementTimeout_playerOrder (s : GameState) (pid : Nat) :
    (incrementTimeout s pid).playerOrder = s.playerOrder := by
  rw [incrementTimeout]
  split <;> rfl

theorem incrementTimeout_playersData_of_some (s : GameState) (pid : Nat)
    (pd : PlayerData) (h : recordGet s.playersData pid = some pd) :
    (incrementTimeout s pid).playersData =
      recordSet s.playersData pid { pd with timeouts := pd.timeouts + 1 } := by
  rw [incrementTimeout, h]

theorem addRevealedLetter_playersData (s : GameState) (c : Char) :
    (addRevealedLetter s c).playersData = s.playersData := by
  rw [addRevealedLetter]
  split <;> rfl

theorem addRevealedLetter_turnIndex (s : GameState) (c : Char) :
    (addRevealedLetter s c).turnIndex = s.turnIndex := by
  rw [addRevealedLetter]
  split <;> rfl

theorem addRevealedLetter_playerOrder (s : GameState) (c : Char) :
    (addRevealedLetter s c).playerOrder = s.playerOrder := by
  rw [addRevealedLetter]
  split <;> rfl

theorem addPoints_turnIndex (s : GameState) (pid pts : Nat) :
    (addPoints s pid pts).turnIndex = s.turnIndex := by
  rw [addPoints]
  split <;> rfl

theorem addPoints_playersData_of_some (s : GameState) (pid pts : Nat)
    (pd : PlayerData) (h : recordGet s.playersData pid = some pd) :
    (addPoints s pid pts).playersData =
      recordSet s.playersData pid { pd with score := pd.score + pts } := by
  rw [addPoints, h]

/-! ## Claim theorems -/

/-- C5: in a playing state, when the current player guesses a fresh
canonical letter: if either glyph form occurs in the word, the persisted
guess outcome carries `POINTS_LETTER = 1` added to that player's score, an
unchanged `turnIndex`, and a reset turn deadline; otherwise scores are
untouched and `turnIndex` advances by one modulo the roster length, also
with a reset deadline. -/
theorem handleLetterGuess_correct_vs_wrong
    (maxTimeouts : Nat) (s : GameState) (userId now : Nat) (l : Char)
    (pd : PlayerData)
    (hstatus : s.status = GameStatus.playing)
    (htimeout : checkAndHandleTurnTimeout maxTimeouts s now =
      InteractiveTimeoutResult.notTimedOut)
    (hcur : getCurrentPlayerId s = some userId)
    (hnew : normalize l ∉ s.revealedLetters)
    (hdata : recordGet s.playersData userId = some pd) :
    ((getBothForms (normalize l)).any (fun form => form ∈ s.word) = true →
      (handleLetterGuess maxTimeouts s userId (some l) now).isCorrectGuess = true ∧
      ((handleLetterGuess maxTimeouts s userId (some l) now).stateOf.map
        (fun t => recordGet t.playersData userId)) =
          some (some { pd with score := pd.score + POINTS_LETTER }) ∧
      ((handleLetterGuess maxTimeouts s userId (some l) now).stateOf.map
        GameState.turnIndex) = some s.turnIndex ∧
      ((handleLetterGuess maxTimeouts s userId (some l) now).stateOf.map
        GameState.turnStartTime) = some (some now)) ∧
    ((getBothForms (normalize l)).any (fun form => form ∈ s.word) = false →
      (handleLetterGuess maxTimeouts s userId (some l) now).isWrongGuess = true ∧
      ((handleLetterGuess maxTimeouts s userId (some l) now).stateOf.map
        GameState.playersData) = some s.playersData ∧
      ((handleLetterGuess maxTimeouts s userId (some l) now).stateOf.map
        GameState.turnIndex) = some ((s.turnIndex + 1) % s.playerOrder.length) ∧
      ((handleLetterGuess maxTimeouts s userId (some l) now).stateOf.map
        GameState.turnStartTime) = some (some now)) := by
  have hmain : handleLetterGuess maxTimeouts s userId (some l) now =
      (if (getBothForms (normalize l)).any (fun form => form ∈ s.word) then
        GuessOutcome.correct
          { addPoints (addRevealedLetter s (normalize l)) userId POINTS_LETTER with
            turnStartTime := some now }
          (isWordComplete
            { addPoints (addRevealedLetter s (normalize l)) userId POINTS_LETTER with
              turnStartTime := some now })
       else
        GuessOutcome.wrong
          { nextTurn (addRevealedLetter s (normalize l)) with
            turnStartTime := some now }) := by
    rw [handleLetterGuess.eq_def, hstatus, htimeout, hcur]
    rw [if_neg (by simp)]
    simp only []
    rw [if_neg (by simp)]
    rw [if_neg hnew]
  constructor
  · intro hin
    rw [hmain, if_pos hin]
    refine ⟨rfl, ?_, ?_, rfl⟩
    · simp only [GuessOutcome.stateOf, Option.map_some']
      rw [addPoints_playersData_of_some _ _ _ pd
        (by rw [addRevealedLetter_playersData]; exact hdata)]
      rw [recordGet_recordSet_self]
    · simp only [GuessOutcome.stateOf, Option.map_some']
      rw [addPoints_turnIndex, addRevealedLetter_turnIndex]
  · intro hnotin
    rw [hmain, if_neg (by simp [hnotin])]
    refine ⟨rfl, ?_, ?_, rfl⟩
    · simp only [GuessOutcome.stateOf, Option.map_some']
      rw [show (nextTurn (addRevealedLetter s (normalize l))).playersData =
          (addRevealedLetter s (normalize l)).playersData from rfl]
      rw [addRevealedLetter_playersData]
    · simp only [GuessOutcome.stateOf, Option.map_some']
      rw [show (nextTurn (addRevealedLetter s (normalize l))).turnIndex =
          ((addRevealedLetter s (normalize l)).turnIndex + 1) %
            (addRevealedLetter s (normalize l)).playerOrder.length from rfl]
      rw [addRevealedLetter_turnIndex, addRevealedLetter_playerOrder]

/-- C5 witness: in the concrete two-player state at `now = 41000`, player 5
guesses 'ש' (present: score +1, turn kept) and 'ת' (absent: scores
untouched, turn advances to index 1). -/
theorem handleLetterGuess_correct_vs_wrong_witness :
    ((handleLetterGuess 3 exGuessState 5 (some 'ש') 41000).isCorrectGuess = true ∧
     ((handleLetterGuess 3 exGuessState 5 (some 'ש') 41000).stateOf.map
       (fun t => recordGet t.playersData 5)) =
         some (some { pdOf 0 0 with score := (pdOf 0 0).score + POINTS_LETTER }) ∧
     ((handleLetterGuess 3 exGuessState 5 (some 'ש') 41000).stateOf.map
       GameState.turnIndex) = some exGuessState.turnIndex ∧
     ((handleLetterGuess 3 exGuessState 5 (some 'ש') 41000).stateOf.map
       GameState.turnStartTime) = some (some 41000)) ∧
    ((handleLetterGuess 3 exGuessState 5 (some 'ת') 41000).isWrongGuess = true ∧
     ((handleLetterGuess 3 exGuessState 5 (some 'ת') 41000).stateOf.map
       GameState.playersData) = some exGuessState.playersData ∧
     ((handleLetterGuess 3 exGuessState 5 (some 'ת') 41000).stateOf.map
       GameState.turnIndex) =
         some ((exGuessState.turnIndex + 1) % exGuessState.playerOrder.length) ∧
     ((handleLetterGuess 3 exGuessState 5 (some 'ת') 41000).stateOf.map
       GameState.turnStartTime) = some (some 41000)) :=
  ⟨(handleLetterGuess_correct_vs_wrong 3 exGuessState 5 41000 'ש' (pdOf 0 0)
      (by decide) (by decide) (by decide) (by decide) (by decide)).1 (by decide),
   (handleLetterGuess_correct_vs_wrong 3 exGuessState 5 41000 'ת' (pdOf 0 0)
      (by decide) (by decide) (by decide) (by decide) (by decide)).2 (by decide)⟩

/-- C2: when the current player's timeout counter stands at `threshold - 1`
(`pd.timeouts + 1 = maxTimeouts`), the single turn-timeout transition both
increments the counter and removes the player: every state it hands to the
store (`saved`) already has the player absent from `playerOrder` and
`playersData` (increment and removal are never persisted separately), and
when the player was the sole roster member the match is deleted instead of
saved.  The same holds for the interactive pre-action check when its
guards (no solve attempt, expired turn timer) pass. -/
theorem handleTurnTimeout_threshold_ejects
    (maxTimeouts : Nat) (s : GameState) (pid now : Nat) (pd : PlayerData)
    (hcur : getCurrentPlayerId s = some pid)
    (hpid : pid ≠ 0)
    (hdata : recordGet s.playersData pid = some pd)
    (hcount : pd.timeouts + 1 = maxTimeouts) :
    handleTurnTimeout maxTimeouts s now ≠ TimeoutOutcome.noOp ∧
    (∀ s', handleTurnTimeout maxTimeouts s now = TimeoutOutcome.saved s' →
      pid ∉ s'.playerOrder ∧ recordGet s'.playersData pid = none) ∧
    (s.playerOrder = [pid] →
      handleTurnTimeout maxTimeouts s now = TimeoutOutcome.deleted) ∧
    (∀ turnStart, s.awaitingSolution = false →
      s.turnStartTime = some turnStart → turnStart ≠ 0 →
      TURN_TIMEOUT_MS < now - turnStart →
      (∀ s', checkAndHandleTurnTimeout maxTimeouts s now =
          InteractiveTimeoutResult.saved s' →
        pid ∉ s'.playerOrder ∧ recordGet s'.playersData pid = none) ∧
      (s.playerOrder = [pid] →
        checkAndHandleTurnTimeout maxTimeouts s now =
          InteractiveTimeoutResult.deleted)) := by
  have hmem : pid ∈ s.playerOrder :=
    List.getElem?_mem (by simpa [getCurrentPlayerId] using hcur)
  have hmem1 : pid ∈ (incrementTimeout s pid).playerOrder := by
    rw [incrementTimeout_playerOrder]
    exact hmem
  have hdata1 : recordGet (incrementTimeout s pid).playersData pid =
      some { pd with timeouts := pd.timeouts + 1 } := by
    rw [incrementTimeout_playersData_of_some s pid pd hdata]
    exact recordGet_recordSet_self _ _ _
  have horder1 : (removePlayer (incrementTimeout s pid) pid).playerOrder =
      (incrementTimeout s pid).playerOrder.filter (fun x => x ≠ pid) := by
    simp [removePlayer, hmem1]
  have hdelData : recordGet (removePlayer (incrementTimeout s pid) pid).playersData pid =
      none := by
    have : (removePlayer (incrementTimeout s pid) pid).playersData =
        recordDelete (incrementTimeout s pid).playersData pid := by
      simp [removePlayer, hmem1]
    rw [this]
    exact recordGet_recordDelete_self _ _
  have hnotmem : pid ∉ (removePlayer (incrementTimeout s pid) pid).playerOrder := by
    rw [horder1]
    simp
  have hmain : handleTurnTimeout maxTimeouts s now =
      (if (removePlayer (incrementTimeout s pid) pid).playerOrder.length < 1
       then TimeoutOutcome.deleted
       else TimeoutOutcome.saved
         { removePlayer (incrementTimeout s pid) pid with
           turnStartTime := some now }) := by
    rw [handleTurnTimeout.eq_def, hcur]
    simp only [if_neg hpid, hdata1]
    rw [if_pos (by omega : maxTimeouts ≤ pd.timeouts + 1)]
  have hsole : s.playerOrder = [pid] →
      handleTurnTimeout maxTimeouts s now = TimeoutOutcome.deleted := by
    intro hsingle
    rw [hmain, if_pos]
    rw [horder1, incrementTimeout_playerOrder, hsingle]
    simp
  have hsaved : ∀ s', handleTurnTimeout maxTimeouts s now = TimeoutOutcome.saved s' →
      pid ∉ s'.playerOrder ∧ recordGet s'.playersData pid = none := by
    intro s' h
    rw [hmain] at h
    by_cases hlen : (removePlayer (incrementTimeout s pid) pid).playerOrder.length < 1
    · rw [if_pos hlen] at h
      cases h
    · rw [if_neg hlen] at h
      cases h
      exact ⟨hnotmem, hdelData⟩
  refine ⟨?_, hsaved, hsole, ?_⟩
  · rw [hmain]
    split <;> simp
  · intro turnStart hawait hturn hne hexp
    have hint : checkAndHandleTurnTimeout maxTimeouts s now =
        (match handleTurnTimeout maxTimeouts s now with
         | .noOp => InteractiveTimeoutResult.notTimedOut
         | .deleted => InteractiveTimeoutResult.deleted
         | .saved st => InteractiveTimeoutResult.saved st) := by
      rw [checkAndHandleTurnTimeout, hawait, hturn]
      simp only [Bool.false_eq_true, if_false]
      rw [if_pos ⟨hne, hexp⟩]
    constructor
    · intro s' h
      rw [hint, hmain] at h
      by_cases hlen : (removePlayer (incrementTimeout s pid) pid).playerOrder.length < 1
      · rw [if_pos hlen] at h
        cases h
      · rw [if_neg hlen] at h
        cases h
        exact ⟨hnotmem, hdelData⟩
    · intro hsingle
      rw [hint, hsole hsingle]

/-- C2 witness: the sole remaining player (id 5, timeout counter 2) times
out with threshold 3 — the match is deleted, not saved. -/
theorem handleTurnTimeout_threshold_ejects_witness :
    getCurrentPlayerId exSoleTimeoutState = some 5 ∧
    recordGet exSoleTimeoutState.playersData 5 = some (pdOf 0 2) ∧
    handleTurnTimeout 3 exSoleTimeoutState 40000 = TimeoutOutcome.deleted ∧
    checkAndHandleTurnTimeout 3 exSoleTimeoutState 40000 =
      InteractiveTimeoutResult.deleted :=
  ⟨by decide, by decide,
   (handleTurnTimeout_threshold_ejects 3 exSoleTimeoutState 5 40000 (pdOf 0 2)
     (by decide) (by decide) (by decide) (by decide)).2.2.1 (by decide),
   ((handleTurnTimeout_threshold_ejects 3 exSoleTimeoutState 5 40000 (pdOf 0 2)
     (by decide) (by decide) (by decide) (by decide)).2.2.2 1000 (by decide)
       (by decide) (by decide) (by decide)).2 (by decide)⟩

/-- C8: after any sequence of `addPlayer` calls from the initial state,
`playerOrder` has no duplicate ids and its length equals the number of
`playersData` entries; `addPlayer` of an already-present id returns the
state unchanged. -/
theorem addPlayer_roster_invariants :
    (∀ (calls : List (Nat × List Char)) (word category : List Char)
        (startedBy winLimit : Nat),
      (applyJoins calls (createInitialState word category startedBy winLimit)).playerOrder.Nodup ∧
      (applyJoins calls (createInitialState word category startedBy winLimit)).playerOrder.length =
        (applyJoins calls (createInitialState word category startedBy winLimit)).playersData.length) ∧
    ∀ (s : GameState) (id : Nat) (name : List Char),
      id ∈ s.playerOrder → addPlayer s id name = s := by
  constructor
  · intro calls word category startedBy winLimit
    have h := applyJoins_invariant calls _
      (joinInvariant_initial word category startedBy winLimit)
    exact ⟨h.1, h.2.1⟩
  · intro s id name hmem
    rw [addPlayer, if_pos hmem]

/-- C8 witness: a join sequence with a repeated id, and a no-op re-join on
a concrete state. -/
theorem addPlayer_roster_invariants_witness :
    (applyJoins [(5, []), (5, []), (6, [])]
      (createInitialState ['א'] [] 1 10)).playerOrder.Nodup ∧
    (applyJoins [(5, []), (5, []), (6, [])]
      (createInitialState ['א'] [] 1 10)).playerOrder.length =
      (applyJoins [(5, []), (5, []), (6, [])]
        (createInitialState ['א'] [] 1 10)).playersData.length ∧
    addPlayer exGuessState 5 [] = exGuessState :=
  ⟨(addPlayer_roster_invariants.1 [(5, []), (5, []), (6, [])] ['א'] [] 1 10).1,
   (addPlayer_roster_invariants.1 [(5, []), (5, []), (6, [])] ['א'] [] 1 10).2,
   addPlayer_roster_invariants.2 exGuessState 5 [] (by decide)⟩

/-- C4: `removePlayer` deletes the id from both `playerOrder` and
`playersData`; `turnIndex` is re-derived exactly as the claim states
(decrement when the removed index precedes it — `Nat` subtraction equals
the source's `Math.max(0, t-1)` there — wrap modulo the new length when
equal with 0 for an emptied roster, unchanged otherwise); the new
`turnIndex` is in bounds whenever the new roster is non-empty; a second
`removePlayer` of the same id is a no-op; and the no-duplicates/in-bounds
invariant is preserved by any sequence of removals in any order. -/
theorem removePlayer_correct (s : GameState) (id : Nat)
    (hmem : id ∈ s.playerOrder) (hnd : s.playerOrder.Nodup)
    (hbound : s.turnIndex < s.playerOrder.length) :
    id ∉ (removePlayer s id).playerOrder ∧
    recordGet (removePlayer s id).playersData id = none ∧
    (removePlayer s id).turnIndex =
      (if s.playerOrder.indexOf id < s.turnIndex then s.turnIndex - 1
       else if s.playerOrder.indexOf id = s.turnIndex then
         (if 0 < (removePlayer s id).playerOrder.length then
            s.turnIndex % (removePlayer s id).playerOrder.length
          else 0)
       else s.turnIndex) ∧
    ((removePlayer s id).playerOrder ≠ [] →
      (removePlayer s id).turnIndex < (removePlayer s id).playerOrder.length) ∧
    (removePlayer s id).playerOrder.Nodup ∧
    removePlayer (removePlayer s id) id = removePlayer s id ∧
    ∀ ids : List Nat, removalInvariant (ids.foldl removePlayer s) := by
  have hinv : removalInvariant s := ⟨hnd, fun _ => hbound⟩
  have hinv' := removePlayer_invariant s id hinv
  have horder : (removePlayer s id).playerOrder =
      s.playerOrder.filter (fun x => x ≠ id) := by
    simp [removePlayer, hmem]
  have hnot : id ∉ (removePlayer s id).playerOrder := by
    rw [horder]
    simp
  refine ⟨hnot, ?_, ?_, hinv'.2, hinv'.1, ?_, ?_⟩
  · have : (removePlayer s id).playersData = recordDelete s.playersData id := by
      simp [removePlayer, hmem]
    rw [this]
    exact recordGet_recordDelete_self s.playersData id
  · rw [horder]
    simp only [removePlayer, if_pos hmem]
  · rw [removePlayer, if_neg hnot]
  · exact fun ids => foldl_removePlayer_invariant ids s hinv

/-- C4 witness: removing the current player (id 2, index 1) from the
three-player state, then attempting a second removal, and a full removal
sequence keeping the invariant. -/
theorem removePlayer_correct_witness :
    (2 ∈ exRemoveState.playerOrder ∧ exRemoveState.playerOrder.Nodup ∧
      exRemoveState.turnIndex < exRemoveState.playerOrder.length) ∧
    2 ∉ (removePlayer exRemoveState 2).playerOrder ∧
    recordGet (removePlayer exRemoveState 2).playersData 2 = none ∧
    removePlayer (removePlayer exRemoveState 2) 2 = removePlayer exRemoveState 2 ∧
    removalInvariant ([2, 1, 3].foldl removePlayer exRemoveState) :=
  ⟨⟨by decide, by decide, by decide⟩,
   (removePlayer_correct exRemoveState 2 (by decide) (by decide) (by decide)).1,
   (removePlayer_correct exRemoveState 2 (by decide) (by decide) (by decide)).2.1,
   (removePlayer_correct exRemoveState 2 (by decide) (by decide) (by decide)).2.2.2.2.2.1,
   (removePlayer_correct exRemoveState 2 (by decide) (by decide) (by decide)).2.2.2.2.2.2
     [2, 1, 3]⟩

/-- C3 counterexample: with roster order `[10, 3]` and both players at the
win limit, `checkWinner` returns `some 3` (ascending key enumeration of the
`playersData` object), not the roster-first player `10` that the claim —
restated verbatim as `checkWinnerRosterSpec` — predicts. -/
theorem checkWinner_not_roster_order :
    checkWinner exWinnerPairState = some 3 ∧
    checkWinnerRosterSpec exWinnerPairState = some 10 ∧
    checkWinner exWinnerPairState ≠ checkWinnerRosterSpec exWinnerPairState :=
  ⟨by decide, by decide, by decide⟩

/-- C3 amended: `checkWinner` returns `none` iff no player's score reaches
`winLimit`, and when it returns `some pid`, `pid` is a qualifying player
with the SMALLEST id among all qualifying players (the enumeration order of
the numeric-keyed `playersData` object), not the first by roster order. -/
theorem checkWinner_first_by_id (s : GameState)
    (hwf : RecordWF s.playersData) :
    (checkWinner s = none ↔ ∀ e ∈ s.playersData, e.2.score < s.winLimit) ∧
    (∀ pid, checkWinner s = some pid →
      (match recordGet s.playersData pid with
       | some pd => s.winLimit ≤ pd.score
       | none => False) ∧
      ∀ e ∈ s.playersData, s.winLimit ≤ e.2.score → pid ≤ e.1) := by
  constructor
  · rw [checkWinner, Option.map_eq_none']
    rw [List.find?_eq_none]
    constructor
    · intro h e he
      have := h e he
      simpa using this
    · intro h e he
      simpa using h e he
  · intro pid hpid
    rw [checkWinner] at hpid
    obtain ⟨e, hfind, hfst⟩ := Option.map_eq_some'.mp hpid
    subst hfst
    have hmem : e ∈ s.playersData := List.mem_of_find?_eq_some hfind
    have hscore : s.winLimit ≤ e.2.score := by
      simpa using List.find?_some hfind
    constructor
    · rw [recordGet_of_mem s.playersData e.1 e.2 hwf hmem]
      exact hscore
    · exact find_score_min s.winLimit s.playersData e hwf hfind

/-- C3 witness: `checkWinner_first_by_id` applied to the concrete
two-winner state; id 3 qualifies and is minimal among qualifiers. -/
theorem checkWinner_first_by_id_witness :
    RecordWF exWinnerPairState.playersData ∧
    ((match recordGet exWinnerPairState.playersData 3 with
      | some pd => exWinnerPairState.winLimit ≤ pd.score
      | none => False) ∧
     ∀ e ∈ exWinnerPairState.playersData,
       exWinnerPairState.winLimit ≤ e.2.score → 3 ≤ e.1) :=
  ⟨by decide,
   (checkWinner_first_by_id exWinnerPairState (by decide)).2 3 (by decide)⟩

/-- C1: the periodic sweep's per-game check, applied to a playing state
whose solve attempt is active and unexpired (`40000 - 20000 ≤
SOLUTION_TIMEOUT_MS`) but whose turn timer has expired, falls through and
invokes the turn-timeout handler — the claimed suppression of turn-timeout
by an active solve attempt fails on the sweep path, while the interactive
pre-action check does suppress it (`awaitingSolution` guard). -/
theorem sweep_fires_turn_timeout_during_unexpired_solve :
    exSolveState.awaitingSolution = true ∧
    exSolveState.status = GameStatus.playing ∧
    ¬ SOLUTION_TIMEOUT_MS < 40000 - 20000 ∧
    sweepGameAction exSolveState 40000 = SweepAction.turnTimeout ∧
    checkAndHandleTurnTimeout 3 exSolveState 40000 =
      InteractiveTimeoutResult.notTimedOut :=
  ⟨by decide, by decide, by decide, by decide, by decide⟩

/-- C6 counterexample: the claim states `compareHebrewStrings` returns
`false` for the pair ("שלום", "שלומ"); it actually returns `true`, because
the final mem normalizes to the regular mem. -/
theorem compareHebrewStrings_final_mem_pair_not_false :
    ¬ compareHebrewStrings ['ש', 'ל', 'ו', 'ם'] ['ש', 'ל', 'ו', 'מ'] = false :=
  by decide

/-- C6 amended: `compareHebrewStrings` returns `true` for BOTH pairs —
("אבג ד", "אבגד") ignoring the space, and ("שלום", "שלומ") because the
regular/final distinction is normalized away. -/
theorem compareHebrewStrings_on_spec_pairs :
    compareHebrewStrings ['א', 'ב', 'ג', ' ', 'ד'] ['א', 'ב', 'ג', 'ד'] = true ∧
    compareHebrewStrings ['ש', 'ל', 'ו', 'ם'] ['ש', 'ל', 'ו', 'מ'] = true :=
  by decide

/-- C7 counterexample: on a state with an in-flight solve attempt whose
deadline timestamp is `some 5`, `newRound` leaves `solutionStartTime`
untouched instead of clearing it. -/
theorem newRound_keeps_solutionStartTime :
    exStaleSolveState.awaitingSolution = true ∧
    (newRound exStaleSolveState ['ב'] []).solutionStartTime = some 5 :=
  by decide

/-- C7 amended: `newRound` replaces word and category, empties
`revealedLetters`, clears `awaitingSolution`, `solvingPlayerId` and
`solutionMessageId` — but leaves the solve deadline timestamp
(`solutionStartTime`) unchanged — and leaves scores (`playersData`),
`playerOrder`, `turnIndex`, `winLimit` and `status` untouched. -/
theorem newRound_effects (s : GameState) (word category : List Char) :
    (newRound s word category).word = word ∧
    (newRound s word category).category = category ∧
    (newRound s word category).revealedLetters = [] ∧
    (newRound s word category).awaitingSolution = false ∧
    (newRound s word category).solvingPlayerId = none ∧
    (newRound s word category).solutionMessageId = none ∧
    (newRound s word category).solutionStartTime = s.solutionStartTime ∧
    (newRound s word category).playersData = s.playersData ∧
    (newRound s word category).playerOrder = s.playerOrder ∧
    (newRound s word category).turnIndex = s.turnIndex ∧
    (newRound s word category).winLimit = s.winLimit ∧
    (newRound s word category).status = s.status := by
  simp [newRound]

/-- C9: on an empty roster `nextTurn` cannot produce a valid `turnIndex`
(the source computes `(turnIndex + 1) % 0`, `NaN` in JS; no index is in
bounds of an empty `playerOrder`), and under the non-empty precondition the
new `turnIndex` is always in bounds. -/
theorem nextTurn_turnIndex_validity :
    (∀ s : GameState, s.playerOrder = [] →
      ¬ (nextTurn s).turnIndex < (nextTurn s).playerOrder.length) ∧
    (∀ s : GameState, s.playerOrder ≠ [] →
      (nextTurn s).turnIndex < (nextTurn s).playerOrder.length) := by
  constructor
  · intro s h
    simp [nextTurn, h]
  · intro s h
    have hlen : 0 < s.playerOrder.length := List.length_pos.mpr h
    simpa [nextTurn] using Nat.mod_lt _ hlen

/-- C9 witness: the two parts of `nextTurn_turnIndex_validity` at the
empty-roster initial state and at a concrete two-player state. -/
theorem nextTurn_turnIndex_validity_witness :
    (¬ (nextTurn emptyRosterState).turnIndex <
        (nextTurn emptyRosterState).playerOrder.length) ∧
    (nextTurn exGuessState).turnIndex < (nextTurn exGuessState).playerOrder.length :=
  ⟨nextTurn_turnIndex_validity.1 emptyRosterState (by decide),
   nextTurn_turnIndex_validity.2 exGuessState (by decide)⟩

/-- C10: `addPoints` and `incrementTimeout` called with an id absent from
`playersData` return the input state unchanged. -/
theorem addPoints_incrementTimeout_absent_id (s : GameState) (pid points : Nat)
    (h : recordGet s.playersData pid = none) :
    addPoints s pid points = s ∧ incrementTimeout s pid = s := by
  constructor <;> simp [addPoints, incrementTimeout, h]

/-- C10 witness: id 42 has no entry in `exGuessState`. -/
theorem addPoints_incrementTimeout_absent_id_witness :
    recordGet exGuessState.playersData 42 = none ∧
    addPoints exGuessState 42 7 = exGuessState ∧
    incrementTimeout exGuessState 42 = exGuessState :=
  ⟨by decide,
   (addPoints_incrementTimeout_absent_id exGuessState 42 7 (by decide)).1,
   (addPoints_incrementTimeout_absent_id exGuessState 42 7 (by decide)).2⟩

end Hangman
